import Mathlib

set_option autoImplicit false
set_option linter.unusedVariables false

/-! Shallow embedding of mcrouter's per-connection server session
    (src/mcrouter/lib/network/McServerSession.cpp).

    Machine integers (uint64_t counters and the pause bitmask) are modelled
    as Nat; the counters only increment or decrement, and the bitmask
    operations stay below 2^64 along every modelled path, with the 64-bit
    complement of `~reason` written explicitly as xor with `2^64 - 1`.
    Externally owned collaborators (transport, parser, write buffers,
    request contexts) are modelled through the interface the session code
    uses, and callback invocations are recorded as observable events on a
    ghost event trace carried in the session state. -/

/-- mc_protocol_t, restricted to the values the session code inspects
    (only the comparison with mc_ascii_protocol matters). -/
inductive Protocol
  | mc_ascii_protocol
  | mc_umbrella_protocol
  deriving DecidableEq, Repr

/-- mc_op_t, restricted to the operations named in McServerSession.cpp plus
    representative generic operations. -/
inductive McOp
  | mc_op_get
  | mc_op_gets
  | mc_op_lease_get
  | mc_op_metaget
  | mc_op_version
  | mc_op_quit
  | mc_op_shutdown
  | mc_op_unknown
  | mc_op_set
  | mc_op_delete
  deriving DecidableEq, Repr

/-- mc_res_t, restricted to the results named in McServerSession.cpp plus
    representative generic results. -/
inductive McRes
  | mc_res_ok
  | mc_res_bad_key
  | mc_res_client_error
  | mc_res_remote_error
  | mc_res_unknown
  deriving DecidableEq, Repr

/-- isPartOfMultiget, McServerSession.cpp lines 31-44. -/
def isPartOfMultiget (protocol : Protocol) (operation : McOp) : Bool :=
  if protocol ≠ .mc_ascii_protocol then
    false
  else if operation = .mc_op_get ∨ operation = .mc_op_gets ∨
          operation = .mc_op_lease_get ∨ operation = .mc_op_metaget then
    true
  else
    false

/-- Modelled from the spec: WriteBuffer (declared outside src/) as used by
    the session code: noReply(), getIovsBegin()/getIovsCount().  `iovs`
    abstracts the iovec array produced by the codec; `reqid` is a ghost
    identity used only to state trace properties (a C++ buffer is
    identified by its address). -/
structure WriteBuffer where
  reqid : Nat
  noReply : Bool
  iovs : List Nat
  deriving DecidableEq, Repr

/-- The slice of the folly transport state that the session observes:
    whether a read callback is installed and whether the transport is good. -/
structure Transport where
  readCB : Bool
  good : Bool
  deriving DecidableEq, Repr

/-- Observable actions of the session: calls into collaborators and
    lifecycle callbacks, recorded in arrival order. -/
inductive Event
  | queueWrite (wb : WriteBuffer)
  | writev (iovs : List Nat)
  | runInLoop
  | recordEnd (reqid : Nat)
  | ctxReply (reqid : Nat) (result : McRes)
  | errorReply (reqid : Nat) (result : McRes) (reason : String)
  | onRequest (reqid : Nat) (operation : McOp)
  | onTypedRequest (typeId : Nat) (reqid : Nat)
  | onWriteQuiescence
  | onCloseStart
  | onCloseFinish
  | onShutdown
  | destroy
  deriving DecidableEq, Repr

/-- AsyncMcServerWorkerOptions fields consumed by McServerSession.cpp. -/
structure Options where
  maxInFlight : Nat
  singleWrite : Bool
  defaultVersionHandler : Bool
  deriving DecidableEq, Repr

/-- McServerSession::State: STREAMING, CLOSING, CLOSED. -/
inductive SessionState
  | STREAMING
  | CLOSING
  | CLOSED
  deriving DecidableEq, Repr

/-- Modelled from the spec: PauseReason bit values (the enum is declared in
    McServerSession.h, outside src/); the spec describes pause_mask as a
    bitset over independent reasons, so the two reasons used by the .cpp
    are taken to be distinct single bits. -/
def PAUSE_THROTTLED : Nat := 1

/-- Modelled from the spec: see PAUSE_THROTTLED. -/
def PAUSE_WRITE : Nat := 2

/-- All-ones 64-bit pattern: `~x` on uint64_t is modelled as
    `x ^^^ UINT64_MASK`. -/
def UINT64_MASK : Nat := 2 ^ 64 - 1

/-- The state of one McServerSession.  Fields mirror the members of
    McServerSession used by the .cpp; `events` is a ghost trace of the
    observable actions (see Event).  The multi-op aggregator is represented
    by the parent reqid it was created with. -/
structure Session where
  options : Options
  parserOutOfOrder : Bool
  parserProtocol : Protocol
  transport : Option Transport
  state : SessionState
  pauseState : Nat
  inFlight : Nat
  realRequestsInFlight : Nat
  headReqid : Nat
  tailReqid : Nat
  blockedReplies : List (Nat × WriteBuffer)
  pendingWrites : List WriteBuffer
  writeBatches : List Nat
  writeBufs : List WriteBuffer
  writeScheduled : Bool
  currentMultiop : Option Nat
  events : List Event
  deriving DecidableEq, Repr

/-- Modelled from the spec: initial member values come from the in-class
    initializers in McServerSession.h (outside src/); the session starts
    Streaming with empty queues, zero counters, ids starting at 0, and the
    transport's read callback installed (McServerSession::create,
    lines 48-81). -/
def initialSession (options : Options) (parserOutOfOrder : Bool)
    (parserProtocol : Protocol) : Session :=
  { options := options
    parserOutOfOrder := parserOutOfOrder
    parserProtocol := parserProtocol
    transport := some { readCB := true, good := true }
    state := .STREAMING
    pauseState := 0
    inFlight := 0
    realRequestsInFlight := 0
    headReqid := 0
    tailReqid := 0
    blockedReplies := []
    pendingWrites := []
    writeBatches := []
    writeBufs := []
    writeScheduled := false
    currentMultiop := none
    events := [] }

/-- transport_->setReadCB(...): a no-op when the transport is gone. -/
def setReadCB (b : Bool) (s : Session) : Session :=
  { s with transport := s.transport.map (fun t => { t with readCB := b }) }

/-- transport_->good(), false when the transport handle was released. -/
def transportGood (s : Session) : Bool :=
  match s.transport with
  | some t => t.good
  | none => false

/-- McServerSession::pause, lines 121-125. -/
def pause (reason : Nat) (s : Session) : Session :=
  setReadCB false { s with pauseState := s.pauseState ||| reason }

/-- McServerSession::resume, lines 127-137. -/
def resume (reason : Nat) (s : Session) : Session :=
  let s := { s with pauseState := s.pauseState &&& (reason ^^^ UINT64_MASK) }
  if s.pauseState = 0 ∧ s.state = .STREAMING ∧ transportGood s = true then
    setReadCB true s
  else
    s

/-- McServerSession::onTransactionStarted, lines 139-151. -/
def onTransactionStarted (isSubRequest : Bool) (s : Session) : Session :=
  let s := { s with
    inFlight := s.inFlight + 1
    realRequestsInFlight :=
      if isSubRequest then s.realRequestsInFlight
      else s.realRequestsInFlight + 1 }
  if 0 < s.options.maxInFlight ∧
      s.options.maxInFlight ≤ s.realRequestsInFlight then
    pause PAUSE_THROTTLED s
  else
    s

/-- McServerSession::checkClosed, lines 153-172.  The body asserts
    pendingWrites_.empty(); setReadCB(nullptr) followed by
    transport_.reset() is modelled as dropping the transport handle. -/
def checkClosed (s : Session) : Session :=
  if s.inFlight = 0 then
    if s.state = .CLOSING then
      { s with
        state := .CLOSED
        transport := none
        events := s.events ++ [.onCloseFinish, .destroy] }
    else
      s
  else
    s

/-- McServerSession::onTransactionCompleted, lines 174-190.  The asserted
    positivity of the counters is reflected in theorems as hypotheses;
    the Nat subtraction used here truncates at zero like the assert-free
    release build. -/
def onTransactionCompleted (isSubRequest : Bool) (s : Session) : Session :=
  let s := { s with
    inFlight := s.inFlight - 1
    realRequestsInFlight :=
      if isSubRequest then s.realRequestsInFlight
      else s.realRequestsInFlight - 1 }
  let s :=
    if 0 < s.options.maxInFlight ∧
        s.realRequestsInFlight < s.options.maxInFlight then
      resume PAUSE_THROTTLED s
    else
      s
  checkClosed s

/-- McServerSession::queueWrite, lines 368-398; wb == nullptr is modelled
    as `none`.  The single-write branch hands the buffer to writev at once;
    the batched branch appends to pendingWrites_ and arms the deferred
    write callback if it is not armed yet. -/
def queueWrite (wb : Option WriteBuffer) (s : Session) : Session :=
  match wb with
  | none => s
  | some wb =>
    if s.options.singleWrite then
      let s := { s with
        writeBufs := s.writeBufs ++ [wb]
        events := s.events ++ [.queueWrite wb, .writev wb.iovs] }
      if s.writeBufs.isEmpty = false then pause PAUSE_WRITE s else s
    else
      let s := { s with
        pendingWrites := s.pendingWrites ++ [wb]
        events := s.events ++ [.queueWrite wb] }
      if s.writeScheduled = false then
        { s with writeScheduled := true, events := s.events ++ [.runInLoop] }
      else
        s

/-- blockedReplies_.find(k): first entry with key k. -/
def findBlocked (k : Nat) : List (Nat × WriteBuffer) → Option WriteBuffer
  | [] => none
  | (k', wb) :: rest => if k' = k then some wb else findBlocked k rest

/-- blockedReplies_.erase(it) for the iterator returned by find(k). -/
def eraseBlocked (k : Nat) : List (Nat × WriteBuffer) → List (Nat × WriteBuffer)
  | [] => []
  | (k', wb) :: rest =>
    if k' = k then rest else (k', wb) :: eraseBlocked k rest

/-- blockedReplies_.emplace(k, wb): inserts only when the key is absent. -/
def emplaceBlocked (k : Nat) (wb : WriteBuffer)
    (l : List (Nat × WriteBuffer)) : List (Nat × WriteBuffer) :=
  match findBlocked k l with
  | some _ => l
  | none => l ++ [(k, wb)]

theorem queueWrite_blockedReplies (wb : Option WriteBuffer) (s : Session) :
    (queueWrite wb s).blockedReplies = s.blockedReplies := by
  unfold queueWrite
  cases wb <;> simp only []
  split
  · split <;> simp [pause, setReadCB]
  · split <;> simp

theorem length_eraseBlocked_lt (k : Nat) (l : List (Nat × WriteBuffer))
    (wb : WriteBuffer) (h : findBlocked k l = some wb) :
    (eraseBlocked k l).length < l.length := by
  induction l with
  | nil => simp [findBlocked] at h
  | cons p rest ih =>
    obtain ⟨k', wb'⟩ := p
    by_cases hk : k' = k
    · simp [eraseBlocked, hk]
    · simp only [findBlocked, hk, if_false] at h
      simp only [eraseBlocked, hk, if_false, List.length_cons]
      exact Nat.succ_lt_succ (ih h)

/-- The drain loop inside McServerSession::reply, lines 201-206: repeatedly
    look up the (already pre-incremented) headReqid_ in blockedReplies_,
    queue the buffer found there, erase it, and advance headReqid_. -/
def drainBlockedReplies (s : Session) : Session :=
  match h : findBlocked s.headReqid s.blockedReplies with
  | none => s
  | some wb =>
    drainBlockedReplies
      (queueWrite (some wb)
        { s with
          blockedReplies := eraseBlocked s.headReqid s.blockedReplies
          headReqid := s.headReqid + 1 })
termination_by s.blockedReplies.length
decreasing_by
  simp only [queueWrite_blockedReplies]
  exact length_eraseBlocked_lt _ _ _ h

/-- McServerSession::reply, lines 192-212. -/
def reply (wb : WriteBuffer) (reqid : Nat) (s : Session) : Session :=
  if s.parserOutOfOrder then
    queueWrite (some wb) s
  else if reqid = s.headReqid then
    let s := queueWrite (some wb) s
    drainBlockedReplies { s with headReqid := s.headReqid + 1 }
  else
    { s with blockedReplies := emplaceBlocked reqid wb s.blockedReplies }

/-- McServerSession::processMultiOpEnd, lines 214-217:
    currentMultiop_->recordEnd(tailReqid_++); currentMultiop_.reset(). -/
def processMultiOpEnd (s : Session) : Session :=
  { s with
    events := s.events ++ [.recordEnd s.tailReqid]
    tailReqid := s.tailReqid + 1
    currentMultiop := none }

/-- The tail of McServerSession::close, lines 228-235: the state
    transition to CLOSING (firing onCloseStart_) followed by checkClosed. -/
def closeTransition (s : Session) : Session :=
  let s :=
    if s.state = .STREAMING then
      { s with state := .CLOSING, events := s.events ++ [.onCloseStart] }
    else
      s
  checkClosed s

/-- McServerSession::close, lines 219-236. -/
def close (s : Session) : Session :=
  let s := if s.currentMultiop.isSome then processMultiOpEnd s else s
  closeTransition s

/-- McServerSession::multiOpEnd, lines 269-277. -/
def multiOpEnd (s : Session) : Session :=
  if s.state ≠ .STREAMING then s else processMultiOpEnd s

/-- The reqid-assignment prefix of McServerSession::requestReady,
    lines 290-297: out-of-order parsers keep the parser-assigned id; the
    in-order path first creates a multi-op aggregator (consuming an id for
    the parent) when needed, then assigns tailReqid_++ to the request. -/
def assignReqid (operation : McOp) (parserReqid : Nat) (s : Session) :
    Session × Nat :=
  if s.parserOutOfOrder = false then
    let s :=
      if isPartOfMultiget s.parserProtocol operation = true ∧
          s.currentMultiop = none then
        { s with
          currentMultiop := some s.tailReqid
          tailReqid := s.tailReqid + 1 }
      else
        s
    ({ s with tailReqid := s.tailReqid + 1 }, s.tailReqid)
  else
    (s, parserReqid)

/-- McServerRequestContext fields passed at construction,
    McServerSession.cpp line 299 (the ASCII key snapshot is omitted: no
    modelled behavior reads it). -/
structure RequestContext where
  operation : McOp
  reqid : Nat
  noreply : Bool
  multiopParent : Option Nat
  deriving DecidableEq, Repr

/-- The dispatch tail of McServerSession::requestReady, lines 306-324.
    McServerRequestContext::reply lives outside src/; modelled from the
    spec as the observable submission of one reply through the context
    (event ctxReply), which is the only legal way to submit a reply. -/
def dispatch (ctx : RequestContext) (result : McRes) (s : Session) : Session :=
  if result = .mc_res_bad_key then
    { s with events := s.events ++ [.ctxReply ctx.reqid .mc_res_bad_key] }
  else if ctx.operation = .mc_op_version ∧
      s.options.defaultVersionHandler = true then
    { s with events := s.events ++ [.ctxReply ctx.reqid .mc_res_ok] }
  else if ctx.operation = .mc_op_quit then
    close { s with events := s.events ++ [.ctxReply ctx.reqid .mc_res_ok] }
  else if ctx.operation = .mc_op_shutdown then
    { s with
      events := s.events ++ [.ctxReply ctx.reqid .mc_res_ok, .onShutdown] }
  else
    { s with events := s.events ++ [.onRequest ctx.reqid ctx.operation] }

/-- McServerSession::requestReady, lines 279-325. -/
def requestReady (operation : McOp) (parserReqid : Nat) (result : McRes)
    (noreply : Bool) (s : Session) : Session :=
  if s.state ≠ .STREAMING then
    s
  else
    let p := assignReqid operation parserReqid s
    dispatch
      { operation := operation
        reqid := p.2
        noreply := noreply
        multiopParent := p.1.currentMultiop }
      result p.1

/-- McServerSession::typedRequestReady, lines 327-340 (asserts that the
    parser is out of order; the handler call is the observable event). -/
def typedRequestReady (typeId : Nat) (reqid : Nat) (s : Session) : Session :=
  if s.state ≠ .STREAMING then
    s
  else
    { s with events := s.events ++ [.onTypedRequest typeId reqid] }

/-- McServerSession::parseError, lines 342-353.  The reply through the
    fresh McServerRequestContext is modelled from the spec as the
    observable errorReply event carrying the parser's result and reason at
    the freshly consumed tailReqid_. -/
def parseError (result : McRes) (reason : String) (s : Session) : Session :=
  if s.state ≠ .STREAMING then
    s
  else
    close
      { s with
        tailReqid := s.tailReqid + 1
        events := s.events ++ [.errorReply s.tailReqid result reason] }

/-- McServerSession::sendWrites, lines 404-429.  The while loop that pops
    pendingWrites_ one buffer at a time is translated as a fold over the
    queue contents: noreply buffers contribute no iovecs, every drained
    buffer is pushed into writeBufs_, and the drained count is appended to
    writeBatches_. -/
def sendWrites (s : Session) : Session :=
  let s := { s with writeScheduled := false }
  let drained := s.pendingWrites
  let iovs :=
    drained.foldl (fun acc wb => if wb.noReply then acc else acc ++ wb.iovs) []
  { s with
    pendingWrites := []
    writeBufs := s.writeBufs ++ drained
    writeBatches := s.writeBatches ++ [drained.length]
    events := s.events ++ [.writev iovs] }

/-- McServerSession::completeWrite, lines 431-445.  The loop popping
    `count` buffers off writeBufs_ is translated as List.drop; the asserted
    non-emptiness of writeBatches_ and writeBufs_ appears in theorems as
    hypotheses. -/
def completeWrite (s : Session) : Session :=
  let count := if s.options.singleWrite then 1 else s.writeBatches.headD 0
  let s :=
    if s.options.singleWrite then s
    else { s with writeBatches := s.writeBatches.tail }
  { s with writeBufs := s.writeBufs.drop count }

/-- McServerSession::writeSuccess, lines 447-459. -/
def writeSuccess (s : Session) : Session :=
  let s := completeWrite s
  if s.writeBufs.isEmpty = true ∧ s.state = .STREAMING then
    resume PAUSE_WRITE { s with events := s.events ++ [.onWriteQuiescence] }
  else
    s

/-- McServerSession::writeErr, lines 461-468. -/
def writeErr (s : Session) : Session :=
  close (completeWrite s)

/-- McServerSession::readEOF, lines 257-261. -/
def readEOF (s : Session) : Session :=
  close s

/-- McServerSession::readErr, lines 263-267. -/
def readErr (s : Session) : Session :=
  close s

/-- McServerSession::readDataAvailable, lines 244-255: the parser consumes
    the bytes (its request callbacks are separate trace events); a parser
    failure closes the session. -/
def readDataAvailable (parserOk : Bool) (s : Session) : Session :=
  if parserOk then s else close s

/-- One externally triggered entry into the session. -/
inductive Op
  | pause (reason : Nat)
  | resume (reason : Nat)
  | onTransactionStarted (isSubRequest : Bool)
  | onTransactionCompleted (isSubRequest : Bool)
  | reply (wb : WriteBuffer) (reqid : Nat)
  | close
  | multiOpEnd
  | requestReady (operation : McOp) (parserReqid : Nat) (result : McRes)
      (noreply : Bool)
  | typedRequestReady (typeId : Nat) (reqid : Nat)
  | parseError (result : McRes) (reason : String)
  | sendWrites
  | writeSuccess
  | writeErr
  | readEOF
  | readErr
  | readDataAvailable (parserOk : Bool)
  deriving DecidableEq, Repr

/-- Dispatching one entry point. -/
def step (op : Op) (s : Session) : Session :=
  match op with
  | .pause reason => pause reason s
  | .resume reason => resume reason s
  | .onTransactionStarted b => onTransactionStarted b s
  | .onTransactionCompleted b => onTransactionCompleted b s
  | .reply wb reqid => reply wb reqid s
  | .close => close s
  | .multiOpEnd => multiOpEnd s
  | .requestReady operation parserReqid result noreply =>
      requestReady operation parserReqid result noreply s
  | .typedRequestReady typeId reqid => typedRequestReady typeId reqid s
  | .parseError result reason => parseError result reason s
  | .sendWrites => sendWrites s
  | .writeSuccess => writeSuccess s
  | .writeErr => writeErr s
  | .readEOF => readEOF s
  | .readErr => readErr s
  | .readDataAvailable ok => readDataAvailable ok s

/-- A session reached by running a list of entry points from a start state. -/
def run (ops : List Op) (s : Session) : Session :=
  ops.foldl (fun s op => step op s) s

/-- Feeding a list of replies to the session, the buffer for id i built by
    `mk`. -/
def replySeq (mk : Nat → WriteBuffer) (ids : List Nat) (s : Session) : Session :=
  ids.foldl (fun s i => reply (mk i) i s) s

/-- The keys of blockedReplies_. -/
def keysOf (l : List (Nat × WriteBuffer)) : List Nat :=
  l.map Prod.fst

/-- The subsequence of reqids handed to queueWrite, read off the event
    trace. -/
def qwTrace : List Event → List Nat
  | [] => []
  | .queueWrite wb :: es => wb.reqid :: qwTrace es
  | _ :: es => qwTrace es

/-- Number of onCloseFinish events in a trace. -/
def countFinish : List Event → Nat
  | [] => 0
  | .onCloseFinish :: es => countFinish es + 1
  | _ :: es => countFinish es

/-- Number of onCloseStart events in a trace. -/
def countStart : List Event → Nat
  | [] => 0
  | .onCloseStart :: es => countStart es + 1
  | _ :: es => countStart es

theorem qwTrace_append (a b : List Event) :
    qwTrace (a ++ b) = qwTrace a ++ qwTrace b := by
  induction a with
  | nil => rfl
  | cons e es ih => cases e <;> simp [qwTrace, ih]

theorem countFinish_append (a b : List Event) :
    countFinish (a ++ b) = countFinish a + countFinish b := by
  induction a with
  | nil => simp [countFinish]
  | cons e es ih => cases e <;> simp [countFinish, ih] <;> omega

theorem countStart_append (a b : List Event) :
    countStart (a ++ b) = countStart a + countStart b := by
  induction a with
  | nil => simp [countStart]
  | cons e es ih => cases e <;> simp [countStart, ih] <;> omega

theorem findBlocked_eq_none_iff (k : Nat) (l : List (Nat × WriteBuffer)) :
    findBlocked k l = none ↔ k ∉ keysOf l := by
  induction l with
  | nil => simp [findBlocked, keysOf]
  | cons p rest ih =>
    obtain ⟨k', wb'⟩ := p
    by_cases hk : k' = k
    · subst hk
      simp [findBlocked, keysOf]
    · simp only [findBlocked, if_neg hk, keysOf, List.map_cons, List.mem_cons,
        not_or] at ih ⊢
      rw [ih]
      have hkk : ¬k = k' := fun h => hk h.symm
      tauto

theorem findBlocked_mem (k : Nat) (l : List (Nat × WriteBuffer))
    (wb : WriteBuffer) (h : findBlocked k l = some wb) : (k, wb) ∈ l := by
  induction l with
  | nil => simp [findBlocked] at h
  | cons p rest ih =>
    obtain ⟨k', wb'⟩ := p
    by_cases hk : k' = k
    · simp [findBlocked, hk] at h
      subst hk h
      exact List.mem_cons_self _ _
    · simp only [findBlocked, hk, if_false] at h
      exact List.mem_cons_of_mem _ (ih h)

theorem mem_keysOf_iff_findBlocked (k : Nat) (l : List (Nat × WriteBuffer)) :
    k ∈ keysOf l ↔ ∃ wb, findBlocked k l = some wb := by
  constructor
  · intro h
    cases hf : findBlocked k l with
    | none => exact absurd h ((findBlocked_eq_none_iff k l).mp hf)
    | some wb => exact ⟨wb, rfl⟩
  · rintro ⟨wb, hf⟩
    have hmem := findBlocked_mem k l wb hf
    exact List.mem_map.mpr ⟨(k, wb), hmem, rfl⟩

theorem mem_keysOf_eraseBlocked (k k' : Nat) (l : List (Nat × WriteBuffer))
    (hnd : (keysOf l).Nodup) :
    k' ∈ keysOf (eraseBlocked k l) ↔ k' ∈ keysOf l ∧ k' ≠ k := by
  induction l with
  | nil => simp [eraseBlocked, keysOf]
  | cons p rest ih =>
    obtain ⟨k0, wb0⟩ := p
    simp only [keysOf, List.map_cons, List.nodup_cons] at hnd
    by_cases hk : k0 = k
    · subst hk
      simp only [eraseBlocked, if_pos rfl]
      constructor
      · intro h
        refine ⟨List.mem_cons_of_mem _ h, ?_⟩
        intro hkk
        subst hkk
        exact hnd.1 h
      · intro ⟨h1, h2⟩
        cases List.mem_cons.mp h1 with
        | inl h => exact absurd h h2
        | inr h => exact h
    · simp only [eraseBlocked, if_neg hk, keysOf, List.map_cons,
        List.mem_cons]
      rw [show (List.map Prod.fst (eraseBlocked k rest)) =
        keysOf (eraseBlocked k rest) from rfl]
      rw [ih hnd.2]
      constructor
      · intro h
        cases h with
        | inl h => exact ⟨Or.inl h, h ▸ hk⟩
        | inr h => exact ⟨Or.inr h.1, h.2⟩
      · intro ⟨h1, h2⟩
        cases h1 with
        | inl h => exact Or.inl h
        | inr h => exact Or.inr ⟨h, h2⟩

theorem nodup_keysOf_eraseBlocked (k : Nat) (l : List (Nat × WriteBuffer))
    (hnd : (keysOf l).Nodup) : (keysOf (eraseBlocked k l)).Nodup := by
  induction l with
  | nil => simp [eraseBlocked, keysOf]
  | cons p rest ih =>
    obtain ⟨k0, wb0⟩ := p
    simp only [keysOf, List.map_cons, List.nodup_cons] at hnd
    by_cases hk : k0 = k
    · simpa [eraseBlocked, hk, keysOf] using hnd.2
    · simp only [eraseBlocked, if_neg hk, keysOf, List.map_cons,
        List.nodup_cons]
      refine ⟨?_, ih hnd.2⟩
      intro hmem
      have := (mem_keysOf_eraseBlocked k k0 rest hnd.2).mp hmem
      exact hnd.1 this.1

theorem mem_eraseBlocked_sub (k : Nat) (l : List (Nat × WriteBuffer))
    (p : Nat × WriteBuffer) (h : p ∈ eraseBlocked k l) : p ∈ l := by
  induction l with
  | nil => simp [eraseBlocked] at h
  | cons q rest ih =>
    obtain ⟨k0, wb0⟩ := q
    by_cases hk : k0 = k
    · simp only [eraseBlocked, if_pos hk] at h
      exact List.mem_cons_of_mem _ h
    · simp only [eraseBlocked, if_neg hk, List.mem_cons] at h
      cases h with
      | inl h => exact h ▸ List.mem_cons_self _ _
      | inr h => exact List.mem_cons_of_mem _ (ih h)

theorem findBlocked_of_mem_nodup (k : Nat) (l : List (Nat × WriteBuffer))
    (wb : WriteBuffer) (hnd : (keysOf l).Nodup) (hmem : (k, wb) ∈ l) :
    findBlocked k l = some wb := by
  induction l with
  | nil => simp at hmem
  | cons p rest ih =>
    obtain ⟨k0, wb0⟩ := p
    simp only [keysOf, List.map_cons, List.nodup_cons] at hnd
    cases List.mem_cons.mp hmem with
    | inl h =>
      rw [Prod.mk.injEq] at h
      obtain ⟨h1, h2⟩ := h
      subst h1
      subst h2
      simp [findBlocked]
    | inr h =>
      have hk0 : k0 ≠ k := by
        intro hc
        subst hc
        exact hnd.1 (List.mem_map.mpr ⟨(k0, wb), h, rfl⟩)
      simp only [findBlocked, if_neg hk0]
      exact ih hnd.2 h

/-- Order of the lifecycle states: Streaming < Closing < Closed. -/
def stateRank : SessionState → Nat
  | .STREAMING => 0
  | .CLOSING => 1
  | .CLOSED => 2

/-- onCloseFinish_ has fired exactly once iff the session reached CLOSED. -/
def finishOnce (s : Session) : Prop :=
  countFinish s.events = if s.state = .CLOSED then 1 else 0

theorem queueWrite_fields (wb : WriteBuffer) (s : Session) :
    (queueWrite (some wb) s).headReqid = s.headReqid ∧
    (queueWrite (some wb) s).state = s.state ∧
    (queueWrite (some wb) s).parserOutOfOrder = s.parserOutOfOrder ∧
    (queueWrite (some wb) s).inFlight = s.inFlight ∧
    (queueWrite (some wb) s).currentMultiop = s.currentMultiop ∧
    (queueWrite (some wb) s).tailReqid = s.tailReqid ∧
    qwTrace (queueWrite (some wb) s).events = qwTrace s.events ++ [wb.reqid] ∧
    countFinish (queueWrite (some wb) s).events = countFinish s.events ∧
    countStart (queueWrite (some wb) s).events = countStart s.events := by
  unfold queueWrite
  simp only []
  split
  · split <;>
      simp [pause, setReadCB, qwTrace_append, countFinish_append,
        countStart_append, qwTrace, countFinish, countStart]
  · split <;>
      simp [qwTrace_append, countFinish_append, countStart_append, qwTrace,
        countFinish, countStart]

theorem drainBlockedReplies_preserves (m : Nat) :
    ∀ s : Session, s.blockedReplies.length ≤ m →
    (drainBlockedReplies s).state = s.state ∧
    (drainBlockedReplies s).inFlight = s.inFlight ∧
    (drainBlockedReplies s).currentMultiop = s.currentMultiop ∧
    (drainBlockedReplies s).tailReqid = s.tailReqid ∧
    (drainBlockedReplies s).parserOutOfOrder = s.parserOutOfOrder ∧
    countFinish (drainBlockedReplies s).events = countFinish s.events ∧
    countStart (drainBlockedReplies s).events = countStart s.events := by
  induction m with
  | zero =>
    intro s hlen
    have hnil : s.blockedReplies = [] :=
      List.length_eq_zero.mp (Nat.le_zero.mp hlen)
    rw [drainBlockedReplies]
    cases hf : findBlocked s.headReqid s.blockedReplies with
    | none => simp
    | some wb =>
      rw [hnil] at hf
      simp [findBlocked] at hf
  | succ m ih =>
    intro s hlen
    rw [drainBlockedReplies]
    cases hf : findBlocked s.headReqid s.blockedReplies with
    | none => simp
    | some wb =>
      simp only []
      set s1 := queueWrite (some wb)
        { s with
          blockedReplies := eraseBlocked s.headReqid s.blockedReplies
          headReqid := s.headReqid + 1 } with hs1
      have hq := queueWrite_fields wb
        { s with
          blockedReplies := eraseBlocked s.headReqid s.blockedReplies
          headReqid := s.headReqid + 1 }
      have hlen1 : s1.blockedReplies.length ≤ m := by
        rw [hs1, queueWrite_blockedReplies]
        show (eraseBlocked s.headReqid s.blockedReplies).length ≤ m
        have := length_eraseBlocked_lt s.headReqid s.blockedReplies wb hf
        omega
      have hrec := ih s1 hlen1
      refine ⟨?_, ?_, ?_, ?_, ?_, ?_, ?_⟩
      · rw [hrec.1, hq.2.1]
      · rw [hrec.2.1, hq.2.2.2.1]
      · rw [hrec.2.2.1, hq.2.2.2.2.1]
      · rw [hrec.2.2.2.1, hq.2.2.2.2.2.1]
      · rw [hrec.2.2.2.2.1, hq.2.2.1]
      · rw [hrec.2.2.2.2.2.1, hq.2.2.2.2.2.2.2.1]
      · rw [hrec.2.2.2.2.2.2, hq.2.2.2.2.2.2.2.2]

theorem checkClosed_stay (s : Session)
    (h : ¬(s.inFlight = 0 ∧ s.state = .CLOSING)) : checkClosed s = s := by
  unfold checkClosed
  by_cases h0 : s.inFlight = 0
  · simp only [if_pos h0]
    have : s.state ≠ .CLOSING := fun hc => h ⟨h0, hc⟩
    simp [this]
  · simp [h0]

theorem checkClosed_fire (s : Session) (h0 : s.inFlight = 0)
    (h1 : s.state = .CLOSING) :
    checkClosed s =
      { s with
        state := .CLOSED
        transport := none
        events := s.events ++ [.onCloseFinish, .destroy] } := by
  unfold checkClosed
  simp [h0, h1]

/-- One entry point's effect on the lifecycle: the state rank never
    decreases, and the "onCloseFinish fired exactly once iff CLOSED"
    accounting is preserved. -/
def lifecycleStep (s t : Session) : Prop :=
  stateRank s.state ≤ stateRank t.state ∧ (finishOnce s → finishOnce t)

theorem lifecycleStep_of_eq (s t : Session) (hstate : t.state = s.state)
    (hcount : countFinish t.events = countFinish s.events) :
    lifecycleStep s t := by
  constructor
  · rw [hstate]
  · intro h
    unfold finishOnce at h ⊢
    rw [hstate, hcount]
    exact h

theorem lifecycleStep_trans (s t u : Session) (h1 : lifecycleStep s t)
    (h2 : lifecycleStep t u) : lifecycleStep s u :=
  ⟨le_trans h1.1 h2.1, fun h => h2.2 (h1.2 h)⟩

theorem lifecycle_pause (r : Nat) (s : Session) :
    lifecycleStep s (pause r s) := by
  apply lifecycleStep_of_eq <;> simp [pause, setReadCB]

theorem lifecycle_resume (r : Nat) (s : Session) :
    lifecycleStep s (resume r s) := by
  apply lifecycleStep_of_eq <;> unfold resume <;> simp only [] <;> split <;>
    simp [setReadCB]

theorem lifecycle_onTransactionStarted (b : Bool) (s : Session) :
    lifecycleStep s (onTransactionStarted b s) := by
  apply lifecycleStep_of_eq <;> unfold onTransactionStarted <;>
    simp only [] <;> split <;> split <;> simp [pause, setReadCB]

theorem lifecycle_checkClosed (s : Session) :
    lifecycleStep s (checkClosed s) := by
  by_cases h : s.inFlight = 0 ∧ s.state = .CLOSING
  · rw [checkClosed_fire s h.1 h.2]
    constructor
    · rw [h.2]
      simp [stateRank]
    · intro hf
      unfold finishOnce at hf ⊢
      simp only [countFinish_append]
      rw [h.2] at hf
      simp [countFinish] at hf ⊢
      omega
  · rw [checkClosed_stay s h]
    exact lifecycleStep_of_eq s s rfl rfl

theorem lifecycle_onTransactionCompleted (b : Bool) (s : Session) :
    lifecycleStep s (onTransactionCompleted b s) := by
  have key : ∀ t : Session, t.state = s.state → t.events = s.events →
      lifecycleStep s (checkClosed
        (if 0 < t.options.maxInFlight ∧
            t.realRequestsInFlight < t.options.maxInFlight then
          resume PAUSE_THROTTLED t
        else t)) := by
    intro t hst hev
    refine lifecycleStep_trans s _ _ ?_ (lifecycle_checkClosed _)
    split
    · exact lifecycleStep_trans s t _
        (lifecycleStep_of_eq s t hst (by rw [hev])) (lifecycle_resume _ _)
    · exact lifecycleStep_of_eq s t hst (by rw [hev])
  unfold onTransactionCompleted
  simp only []
  exact key
    { s with
      inFlight := s.inFlight - 1
      realRequestsInFlight :=
        if b = true then s.realRequestsInFlight
        else s.realRequestsInFlight - 1 } rfl rfl

theorem lifecycle_queueWrite (wb : Option WriteBuffer) (s : Session) :
    lifecycleStep s (queueWrite wb s) := by
  cases wb with
  | none => exact lifecycleStep_of_eq s s rfl rfl
  | some wb =>
    have h := queueWrite_fields wb s
    exact lifecycleStep_of_eq s _ h.2.1 h.2.2.2.2.2.2.2.1

theorem lifecycle_drain (s : Session) :
    lifecycleStep s (drainBlockedReplies s) := by
  have h := drainBlockedReplies_preserves s.blockedReplies.length s le_rfl
  exact lifecycleStep_of_eq s _ h.1 h.2.2.2.2.2.1

theorem lifecycle_reply (wb : WriteBuffer) (reqid : Nat) (s : Session) :
    lifecycleStep s (reply wb reqid s) := by
  unfold reply
  split
  · exact lifecycle_queueWrite _ s
  · split
    · refine lifecycleStep_trans s (queueWrite (some wb) s) _
        (lifecycle_queueWrite _ s) ?_
      refine lifecycleStep_trans _
        { queueWrite (some wb) s with
          headReqid := (queueWrite (some wb) s).headReqid + 1 } _ ?_
        (lifecycle_drain _)
      apply lifecycleStep_of_eq <;> simp
    · apply lifecycleStep_of_eq <;> simp

theorem lifecycle_processMultiOpEnd (s : Session) :
    lifecycleStep s (processMultiOpEnd s) := by
  apply lifecycleStep_of_eq <;>
    simp [processMultiOpEnd, countFinish_append, countFinish]

theorem lifecycle_closeTransition (s : Session) :
    lifecycleStep s (closeTransition s) := by
  unfold closeTransition
  simp only []
  refine lifecycleStep_trans s _ _ ?_ (lifecycle_checkClosed _)
  split
  · rename_i hst
    constructor
    · rw [hst]
      simp [stateRank]
    · intro hf
      unfold finishOnce at hf ⊢
      rw [hst] at hf
      simp [countFinish_append, countFinish] at hf ⊢
      exact hf
  · exact lifecycleStep_of_eq s s rfl rfl

theorem lifecycle_close (s : Session) : lifecycleStep s (close s) := by
  unfold close
  simp only []
  split
  · exact lifecycleStep_trans s _ _ (lifecycle_processMultiOpEnd s)
      (lifecycle_closeTransition _)
  · exact lifecycle_closeTransition s

theorem lifecycle_multiOpEnd (s : Session) :
    lifecycleStep s (multiOpEnd s) := by
  unfold multiOpEnd
  split
  · exact lifecycleStep_of_eq s s rfl rfl
  · exact lifecycle_processMultiOpEnd s

theorem lifecycle_dispatch (ctx : RequestContext) (result : McRes)
    (s : Session) : lifecycleStep s (dispatch ctx result s) := by
  unfold dispatch
  split
  · apply lifecycleStep_of_eq <;> simp [countFinish_append, countFinish]
  · split
    · apply lifecycleStep_of_eq <;> simp [countFinish_append, countFinish]
    · split
      · refine lifecycleStep_trans s _ _ ?_ (lifecycle_close _)
        apply lifecycleStep_of_eq <;>
          simp [countFinish_append, countFinish]
      · split
        · apply lifecycleStep_of_eq <;>
            simp [countFinish_append, countFinish]
        · apply lifecycleStep_of_eq <;>
            simp [countFinish_append, countFinish]

theorem assignReqid_fields (operation : McOp) (parserReqid : Nat)
    (s : Session) :
    (assignReqid operation parserReqid s).1.state = s.state ∧
    (assignReqid operation parserReqid s).1.events = s.events ∧
    (assignReqid operation parserReqid s).1.inFlight = s.inFlight ∧
    (assignReqid operation parserReqid s).1.headReqid = s.headReqid ∧
    (assignReqid operation parserReqid s).1.blockedReplies =
      s.blockedReplies := by
  unfold assignReqid
  split
  · split <;> simp
  · simp

theorem lifecycle_requestReady (operation : McOp) (parserReqid : Nat)
    (result : McRes) (noreply : Bool) (s : Session) :
    lifecycleStep s (requestReady operation parserReqid result noreply s) := by
  unfold requestReady
  split
  · exact lifecycleStep_of_eq s s rfl rfl
  · refine lifecycleStep_trans s (assignReqid operation parserReqid s).1 _
      ?_ (lifecycle_dispatch _ _ _)
    have h := assignReqid_fields operation parserReqid s
    exact lifecycleStep_of_eq s _ h.1 (by rw [h.2.1])

theorem lifecycle_typedRequestReady (typeId reqid : Nat) (s : Session) :
    lifecycleStep s (typedRequestReady typeId reqid s) := by
  unfold typedRequestReady
  split
  · exact lifecycleStep_of_eq s s rfl rfl
  · apply lifecycleStep_of_eq <;> simp [countFinish_append, countFinish]

theorem lifecycle_parseError (result : McRes) (reason : String)
    (s : Session) : lifecycleStep s (parseError result reason s) := by
  unfold parseError
  split
  · exact lifecycleStep_of_eq s s rfl rfl
  · refine lifecycleStep_trans s _ _ ?_ (lifecycle_close _)
    apply lifecycleStep_of_eq <;> simp [countFinish_append, countFinish]

theorem lifecycle_sendWrites (s : Session) :
    lifecycleStep s (sendWrites s) := by
  apply lifecycleStep_of_eq <;>
    simp only [sendWrites] <;>
    simp [countFinish_append, countFinish]

theorem completeWrite_fields (s : Session) :
    (completeWrite s).state = s.state ∧
    (completeWrite s).events = s.events ∧
    (completeWrite s).inFlight = s.inFlight := by
  unfold completeWrite
  simp only []
  split <;> simp

theorem lifecycle_writeSuccess (s : Session) :
    lifecycleStep s (writeSuccess s) := by
  unfold writeSuccess
  simp only []
  have hc := completeWrite_fields s
  split
  · refine lifecycleStep_trans s _ _ ?_ (lifecycle_resume _ _)
    apply lifecycleStep_of_eq
    · simp [hc.1]
    · simp [countFinish_append, countFinish, hc.2.1]
  · exact lifecycleStep_of_eq s _ hc.1 (by rw [hc.2.1])

theorem lifecycle_writeErr (s : Session) : lifecycleStep s (writeErr s) := by
  unfold writeErr
  have hc := completeWrite_fields s
  refine lifecycleStep_trans s _ _ ?_ (lifecycle_close _)
  exact lifecycleStep_of_eq s _ hc.1 (by rw [hc.2.1])

theorem lifecycle_step (op : Op) (s : Session) :
    lifecycleStep s (step op s) := by
  cases op with
  | pause r => exact lifecycle_pause r s
  | resume r => exact lifecycle_resume r s
  | onTransactionStarted b => exact lifecycle_onTransactionStarted b s
  | onTransactionCompleted b => exact lifecycle_onTransactionCompleted b s
  | reply wb reqid => exact lifecycle_reply wb reqid s
  | close => exact lifecycle_close s
  | multiOpEnd => exact lifecycle_multiOpEnd s
  | requestReady operation parserReqid result noreply =>
      exact lifecycle_requestReady operation parserReqid result noreply s
  | typedRequestReady typeId reqid =>
      exact lifecycle_typedRequestReady typeId reqid s
  | parseError result reason => exact lifecycle_parseError result reason s
  | sendWrites => exact lifecycle_sendWrites s
  | writeSuccess => exact lifecycle_writeSuccess s
  | writeErr => exact lifecycle_writeErr s
  | readEOF => exact lifecycle_close s
  | readErr => exact lifecycle_close s
  | readDataAvailable ok =>
      cases ok with
      | true => exact lifecycleStep_of_eq s s rfl rfl
      | false => exact lifecycle_close s

theorem run_finishOnce (ops : List Op) (s : Session) (h : finishOnce s) :
    finishOnce (run ops s) := by
  induction ops generalizing s with
  | nil => exact h
  | cons op rest ih => exact ih (step op s) ((lifecycle_step op s).2 h)

/-- Invariant of the in-order reply path at a point where the drain loop
    may still find the head id blocked: the queued trace is exactly
    0..headReqid-1, the blocked keys are exactly the already-arrived ids at
    or past headReqid, every id below headReqid has arrived, the blocked
    keys are distinct, and each blocked buffer carries its key. -/
structure DrainInv (done : List Nat) (s : Session) : Prop where
  ooo : s.parserOutOfOrder = false
  trace : qwTrace s.events = List.range s.headReqid
  keys_iff : ∀ k, k ∈ keysOf s.blockedReplies ↔ k ∈ done ∧ s.headReqid ≤ k
  below_done : ∀ k, k < s.headReqid → k ∈ done
  keys_nodup : (keysOf s.blockedReplies).Nodup
  buf_id : ∀ p ∈ s.blockedReplies, (Prod.snd p).reqid = Prod.fst p

/-- DrainInv plus: the head id has not arrived yet.  This holds between
    calls to reply. -/
structure ReplyInv (done : List Nat) (s : Session) : Prop where
  inv : DrainInv done s
  head_not_done : s.headReqid ∉ done

theorem drainBlockedReplies_inv (m : Nat) :
    ∀ (s : Session) (done : List Nat), s.blockedReplies.length ≤ m →
    DrainInv done s →
    DrainInv done (drainBlockedReplies s) ∧
    (drainBlockedReplies s).headReqid ∉
      keysOf (drainBlockedReplies s).blockedReplies := by
  induction m with
  | zero =>
    intro s done hlen hinv
    have hnil : s.blockedReplies = [] :=
      List.length_eq_zero.mp (Nat.le_zero.mp hlen)
    rw [drainBlockedReplies]
    cases hf : findBlocked s.headReqid s.blockedReplies with
    | none =>
      refine ⟨hinv, ?_⟩
      exact (findBlocked_eq_none_iff _ _).mp hf
    | some wb =>
      rw [hnil] at hf
      simp [findBlocked] at hf
  | succ m ih =>
    intro s done hlen hinv
    rw [drainBlockedReplies]
    cases hf : findBlocked s.headReqid s.blockedReplies with
    | none =>
      refine ⟨hinv, ?_⟩
      exact (findBlocked_eq_none_iff _ _).mp hf
    | some wb =>
      simp only []
      set mid : Session :=
        { s with
          blockedReplies := eraseBlocked s.headReqid s.blockedReplies
          headReqid := s.headReqid + 1 } with hmid
      set s2 := queueWrite (some wb) mid with hs2
      have hq := queueWrite_fields wb mid
      have hwbid : wb.reqid = s.headReqid :=
        hinv.buf_id _ (findBlocked_mem _ _ _ hf)
      have hheadmem : s.headReqid ∈ keysOf s.blockedReplies :=
        (mem_keysOf_iff_findBlocked _ _).mpr ⟨wb, hf⟩
      have hhead_done : s.headReqid ∈ done :=
        ((hinv.keys_iff _).mp hheadmem).1
      have hs2head : s2.headReqid = s.headReqid + 1 := by
        rw [hs2, hq.1]
      have hs2blocked : s2.blockedReplies =
          eraseBlocked s.headReqid s.blockedReplies := by
        rw [hs2, queueWrite_blockedReplies]
      have hinv2 : DrainInv done s2 := by
        refine ⟨?_, ?_, ?_, ?_, ?_, ?_⟩
        · rw [hs2, hq.2.2.1]
          exact hinv.ooo
        · rw [hs2, hq.2.2.2.2.2.2.1, hs2.symm, hs2head]
          show qwTrace mid.events ++ [wb.reqid] = List.range (s.headReqid + 1)
          rw [show mid.events = s.events from rfl, hinv.trace, hwbid,
            List.range_succ]
        · intro k
          rw [hs2blocked, hs2head,
            mem_keysOf_eraseBlocked _ _ _ hinv.keys_nodup, hinv.keys_iff k]
          constructor
          · intro ⟨⟨h1, h2⟩, h3⟩
            exact ⟨h1, by omega⟩
          · intro ⟨h1, h2⟩
            exact ⟨⟨h1, by omega⟩, by omega⟩
        · intro k hk
          rw [hs2head] at hk
          rcases Nat.lt_succ_iff_lt_or_eq.mp hk with h | h
          · exact hinv.below_done k h
          · rw [h]
            exact hhead_done
        · rw [hs2blocked]
          exact nodup_keysOf_eraseBlocked _ _ hinv.keys_nodup
        · intro p hp
          rw [hs2blocked] at hp
          exact hinv.buf_id p (mem_eraseBlocked_sub _ _ _ hp)
      have hlen2 : s2.blockedReplies.length ≤ m := by
        rw [hs2blocked]
        have := length_eraseBlocked_lt s.headReqid s.blockedReplies wb hf
        omega
      exact ih s2 done hlen2 hinv2

theorem reply_inv (s : Session) (done : List Nat) (r : Nat)
    (wb : WriteBuffer) (hinv : ReplyInv done s) (hfresh : r ∉ done)
    (hid : wb.reqid = r) : ReplyInv (done ++ [r]) (reply wb r s) := by
  have hooo := hinv.inv.ooo
  unfold reply
  rw [hooo]
  simp only [Bool.false_eq_true, if_false]
  by_cases hr : r = s.headReqid
  · rw [if_pos hr]
    set mid : Session :=
      { queueWrite (some wb) s with
        headReqid := (queueWrite (some wb) s).headReqid + 1 } with hmid
    have hq := queueWrite_fields wb s
    have hmidhead : mid.headReqid = s.headReqid + 1 := by
      rw [hmid]
      show (queueWrite (some wb) s).headReqid + 1 = s.headReqid + 1
      rw [hq.1]
    have hmidblocked : mid.blockedReplies = s.blockedReplies := by
      rw [hmid]
      show (queueWrite (some wb) s).blockedReplies = s.blockedReplies
      rw [queueWrite_blockedReplies]
    have hmidinv : DrainInv (done ++ [r]) mid := by
      refine ⟨?_, ?_, ?_, ?_, ?_, ?_⟩
      · show (queueWrite (some wb) s).parserOutOfOrder = false
        rw [hq.2.2.1]
        exact hooo
      · show qwTrace (queueWrite (some wb) s).events = List.range mid.headReqid
        rw [hq.2.2.2.2.2.2.1, hinv.inv.trace, hid, hr, hmidhead,
          List.range_succ]
      · intro k
        rw [hmidblocked, hmidhead, hinv.inv.keys_iff k]
        constructor
        · intro ⟨h1, h2⟩
          have hne : k ≠ s.headReqid := by
            intro hc
            rw [hc] at h1
            exact hinv.head_not_done h1
          refine ⟨List.mem_append_left _ h1, ?_⟩
          omega
        · intro ⟨h1, h2⟩
          rcases List.mem_append.mp h1 with h | h
          · exact ⟨h, by omega⟩
          · simp at h
            omega
      · intro k hk
        rw [hmidhead] at hk
        rcases Nat.lt_succ_iff_lt_or_eq.mp hk with h | h
        · exact List.mem_append_left _ (hinv.inv.below_done k h)
        · rw [h, ← hr]
          exact List.mem_append_right _ (List.mem_singleton.mpr rfl)
      · rw [hmidblocked]
        exact hinv.inv.keys_nodup
      · intro p hp
        rw [hmidblocked] at hp
        exact hinv.inv.buf_id p hp
    have hdrain := drainBlockedReplies_inv mid.blockedReplies.length mid
      (done ++ [r]) le_rfl hmidinv
    refine ⟨hdrain.1, ?_⟩
    intro hc
    have := (hdrain.1.keys_iff _).mpr ⟨hc, le_rfl⟩
    exact hdrain.2 this
  · rw [if_neg hr]
    have hrkeys : r ∉ keysOf s.blockedReplies := by
      intro hc
      exact hfresh ((hinv.inv.keys_iff r).mp hc).1
    have hremplace : emplaceBlocked r wb s.blockedReplies =
        s.blockedReplies ++ [(r, wb)] := by
      unfold emplaceBlocked
      rw [(findBlocked_eq_none_iff _ _).mpr hrkeys]
    have hkeys2 : keysOf (emplaceBlocked r wb s.blockedReplies) =
        keysOf s.blockedReplies ++ [r] := by
      rw [hremplace]
      simp [keysOf]
    have hhr : s.headReqid < r := by
      have h1 : ¬r < s.headReqid := fun hc => hfresh (hinv.inv.below_done r hc)
      omega
    refine ⟨⟨?_, ?_, ?_, ?_, ?_, ?_⟩, ?_⟩
    · rfl
    · exact hinv.inv.trace
    · intro k
      show k ∈ keysOf (emplaceBlocked r wb s.blockedReplies) ↔ _
      rw [hkeys2, List.mem_append, hinv.inv.keys_iff k, List.mem_append]
      simp only [List.mem_singleton]
      constructor
      · intro h
        rcases h with ⟨h1, h2⟩ | h
        · exact ⟨Or.inl h1, h2⟩
        · rw [h]
          exact ⟨Or.inr rfl, le_of_lt hhr⟩
      · intro ⟨h1, h2⟩
        rcases h1 with h | h
        · exact Or.inl ⟨h, h2⟩
        · exact Or.inr h
    · intro k hk
      exact List.mem_append_left _ (hinv.inv.below_done k hk)
    · show (keysOf (emplaceBlocked r wb s.blockedReplies)).Nodup
      rw [hkeys2]
      simp [List.nodup_append, hinv.inv.keys_nodup, hrkeys]
    · intro p hp
      show (Prod.snd p).reqid = Prod.fst p
      rw [hremplace] at hp
      rcases List.mem_append.mp hp with h | h
      · exact hinv.inv.buf_id p h
      · simp at h
        rw [h]
        exact hid
    · show s.headReqid ∉ done ++ [r]
      intro hc
      rcases List.mem_append.mp hc with h | h
      · exact hinv.head_not_done h
      · simp at h
        omega

theorem replySeq_cons (mk : Nat → WriteBuffer) (i : Nat) (ids : List Nat)
    (s : Session) :
    replySeq mk (i :: ids) s = replySeq mk ids (reply (mk i) i s) := rfl

theorem replySeq_inv (mk : Nat → WriteBuffer) (hmk : ∀ i, (mk i).reqid = i) :
    ∀ (ids done : List Nat) (s : Session), ids.Nodup →
    (∀ i ∈ ids, i ∉ done) → ReplyInv done s →
    ReplyInv (done ++ ids) (replySeq mk ids s) := by
  intro ids
  induction ids with
  | nil =>
    intro done s hnd hdisj hinv
    simpa [replySeq] using hinv
  | cons i rest ih =>
    intro done s hnd hdisj hinv
    rw [replySeq_cons]
    have hstep : ReplyInv (done ++ [i]) (reply (mk i) i s) :=
      reply_inv s done i (mk i) hinv
        (hdisj i (List.mem_cons_self i rest)) (hmk i)
    have hrec := ih (done ++ [i]) (reply (mk i) i s)
      (List.nodup_cons.mp hnd).2
      (by
        intro j hj hc
        rcases List.mem_append.mp hc with h | h
        · exact hdisj j (List.mem_cons_of_mem _ hj) h
        · simp at h
          rw [h] at hj
          exact (List.nodup_cons.mp hnd).1 hj)
      hstep
    rw [List.append_assoc] at hrec
    simpa using hrec

theorem replySeq_final (n : Nat) (ids : List Nat) (mk : Nat → WriteBuffer)
    (s0 : Session) (hperm : ids.Perm (List.range n))
    (hmk : ∀ i, (mk i).reqid = i) (hooo : s0.parserOutOfOrder = false)
    (hhead : s0.headReqid = 0) (hblocked : s0.blockedReplies = [])
    (htrace : qwTrace s0.events = []) :
    qwTrace (replySeq mk ids s0).events = List.range n ∧
    (replySeq mk ids s0).blockedReplies = [] ∧
    (replySeq mk ids s0).headReqid = n := by
  have hinv0 : ReplyInv [] s0 := by
    refine ⟨⟨hooo, ?_, ?_, ?_, ?_, ?_⟩, ?_⟩
    · rw [htrace, hhead]
      rfl
    · intro k
      simp [hblocked, keysOf]
    · intro k hk
      rw [hhead] at hk
      omega
    · simp [hblocked, keysOf]
    · intro p hp
      rw [hblocked] at hp
      simp at hp
    · simp
  have hfin := replySeq_inv mk hmk ids [] s0
    (hperm.symm.nodup (List.nodup_range n))
    (by intro i _ hc; simp at hc) hinv0
  simp only [List.nil_append] at hfin
  have hmem : ∀ k, k ∈ ids ↔ k < n := by
    intro k
    rw [hperm.mem_iff, List.mem_range]
  set t := replySeq mk ids s0 with ht
  have hheadn : t.headReqid = n := by
    have h1 : ¬t.headReqid < n := by
      intro hc
      exact hfin.head_not_done ((hmem _).mpr hc)
    have h2 : ¬n < t.headReqid := by
      intro hc
      have := hfin.inv.below_done n hc
      have := (hmem n).mp this
      omega
    omega
  have hkeysnil : keysOf t.blockedReplies = [] := by
    by_contra hne
    rcases List.exists_mem_of_ne_nil _ hne with ⟨k, hk⟩
    have := (hfin.inv.keys_iff k).mp hk
    have hlt := (hmem k).mp this.1
    rw [hheadn] at this
    omega
  refine ⟨?_, ?_, hheadn⟩
  · rw [hfin.inv.trace, hheadn]
  · exact List.map_eq_nil.mp hkeysnil

theorem pause_fields (r : Nat) (s : Session) :
    (pause r s).pauseState = s.pauseState ||| r ∧
    (pause r s).options = s.options ∧
    (pause r s).realRequestsInFlight = s.realRequestsInFlight ∧
    (pause r s).inFlight = s.inFlight ∧
    (pause r s).state = s.state ∧
    (pause r s).events = s.events ∧
    (pause r s).transport = s.transport.map (fun t => { t with readCB := false }) :=
  ⟨rfl, rfl, rfl, rfl, rfl, rfl, rfl⟩

theorem resume_fields (r : Nat) (s : Session) :
    (resume r s).pauseState = s.pauseState &&& (r ^^^ UINT64_MASK) ∧
    (resume r s).options = s.options ∧
    (resume r s).realRequestsInFlight = s.realRequestsInFlight ∧
    (resume r s).inFlight = s.inFlight ∧
    (resume r s).state = s.state ∧
    (resume r s).events = s.events ∧
    (resume r s).writeBufs = s.writeBufs := by
  unfold resume
  simp only []
  split <;> simp [setReadCB]

theorem checkClosed_fields (s : Session) :
    (checkClosed s).pauseState = s.pauseState ∧
    (checkClosed s).options = s.options ∧
    (checkClosed s).realRequestsInFlight = s.realRequestsInFlight ∧
    (checkClosed s).inFlight = s.inFlight ∧
    (checkClosed s).writeBufs = s.writeBufs ∧
    (checkClosed s).currentMultiop = s.currentMultiop ∧
    (checkClosed s).tailReqid = s.tailReqid ∧
    (checkClosed s).pendingWrites = s.pendingWrites := by
  unfold checkClosed
  split
  · split <;> simp
  · simp

/-- Setting the Throttled bit: pause leaves it set. -/
theorem throttleBit_set (a : Nat) : (a ||| PAUSE_THROTTLED) &&& PAUSE_THROTTLED ≠ 0 := by
  unfold PAUSE_THROTTLED
  show (a ||| 1) &&& 2 ^ 0 ≠ 0
  rw [Nat.and_two_pow, Nat.testBit_lor]
  simp [Nat.testBit_one_eq_true_iff_self_eq_zero]

/-- Clearing the Throttled bit: resume leaves it clear. -/
theorem throttleBit_clear (a : Nat) :
    (a &&& (PAUSE_THROTTLED ^^^ UINT64_MASK)) &&& PAUSE_THROTTLED = 0 := by
  unfold PAUSE_THROTTLED UINT64_MASK
  show (a &&& (1 ^^^ (2 ^ 64 - 1))) &&& 2 ^ 0 = 0
  rw [Nat.and_two_pow, Nat.testBit_land, Nat.testBit_xor,
    Nat.testBit_two_pow_sub_one]
  simp [Nat.testBit_one_eq_true_iff_self_eq_zero]

/-- Setting the bits of r in a 64-bit mask that had none of them, then
    clearing them, restores the mask. -/
theorem lor_land_complement (a r : Nat) (ha : a < 2 ^ 64) (hr : r < 2 ^ 64)
    (h0 : a &&& r = 0) : (a ||| r) &&& (r ^^^ UINT64_MASK) = a := by
  apply Nat.eq_of_testBit_eq
  intro i
  have h0i : (a &&& r).testBit i = false := by
    rw [h0]
    exact Nat.zero_testBit i
  rw [Nat.testBit_land] at h0i
  rw [Nat.testBit_land, Nat.testBit_lor, Nat.testBit_xor]
  unfold UINT64_MASK
  rw [Nat.testBit_two_pow_sub_one]
  by_cases hi : i < 64
  · have hd : decide (i < 64) = true := by simp [hi]
    rw [hd]
    cases hai : a.testBit i <;> cases hri : r.testBit i <;> simp_all
  · have hle : (64 : Nat) ≤ i := le_of_not_lt hi
    have hpow : (2 : Nat) ^ 64 ≤ 2 ^ i := Nat.pow_le_pow_right (by norm_num) hle
    have hai : a.testBit i = false := Nat.testBit_lt_two_pow (lt_of_lt_of_le ha hpow)
    have hri : r.testBit i = false := Nat.testBit_lt_two_pow (lt_of_lt_of_le hr hpow)
    simp [hai, hri, hi]

/-- The throttling invariant over the modelled pause mask. -/
def throttleInv (s : Session) : Prop :=
  (s.pauseState &&& PAUSE_THROTTLED ≠ 0) ↔
    (0 < s.options.maxInFlight ∧
      s.options.maxInFlight ≤ s.realRequestsInFlight)

/-- Entry points covered by the transaction-accounting claim. -/
def isTxOp : Op → Bool
  | .onTransactionStarted _ => true
  | .onTransactionCompleted _ => true
  | _ => false

theorem throttleInv_checkClosed (s : Session) (h : throttleInv s) :
    throttleInv (checkClosed s) := by
  unfold throttleInv at h ⊢
  have hf := checkClosed_fields s
  rw [hf.1, hf.2.1, hf.2.2.1]
  exact h

theorem throttleInv_onTransactionStarted (b : Bool) (s : Session)
    (h : throttleInv s) : throttleInv (onTransactionStarted b s) := by
  have key : ∀ t : Session, t.options = s.options →
      t.pauseState = s.pauseState →
      s.realRequestsInFlight ≤ t.realRequestsInFlight →
      throttleInv
        (if 0 < t.options.maxInFlight ∧
            t.options.maxInFlight ≤ t.realRequestsInFlight then
          pause PAUSE_THROTTLED t
        else t) := by
    intro t hopt hps hreal
    split
    · rename_i hcond
      unfold throttleInv
      have hp := pause_fields PAUSE_THROTTLED t
      rw [hp.1, hp.2.1, hp.2.2.1]
      exact ⟨fun _ => hcond, fun _ => throttleBit_set t.pauseState⟩
    · rename_i hcond
      unfold throttleInv at h ⊢
      constructor
      · intro hbit
        rw [hps] at hbit
        have hold := h.mp hbit
        rw [← hopt] at hold
        exact absurd ⟨hold.1, le_trans hold.2 hreal⟩ hcond
      · intro hc
        exact absurd hc hcond
  unfold onTransactionStarted
  simp only []
  exact key
    { s with
      inFlight := s.inFlight + 1
      realRequestsInFlight :=
        if b = true then s.realRequestsInFlight
        else s.realRequestsInFlight + 1 } rfl rfl
    (by cases b <;> simp [Nat.le_succ])

theorem throttleInv_onTransactionCompleted (b : Bool) (s : Session)
    (h : throttleInv s) : throttleInv (onTransactionCompleted b s) := by
  have key : ∀ t : Session, t.options = s.options →
      t.pauseState = s.pauseState →
      t.realRequestsInFlight ≤ s.realRequestsInFlight →
      throttleInv (checkClosed
        (if 0 < t.options.maxInFlight ∧
            t.realRequestsInFlight < t.options.maxInFlight then
          resume PAUSE_THROTTLED t
        else t)) := by
    intro t hopt hps hreal
    apply throttleInv_checkClosed
    split
    · rename_i hcond
      unfold throttleInv
      have hr := resume_fields PAUSE_THROTTLED t
      rw [hr.1, hr.2.1, hr.2.2.1]
      constructor
      · intro hbit
        exact absurd (throttleBit_clear t.pauseState) hbit
      · intro hc
        have := hcond.2
        omega
    · rename_i hcond
      rw [hopt] at hcond
      unfold throttleInv at h ⊢
      rw [hps, hopt]
      constructor
      · intro hbit
        have hold := h.mp hbit
        refine ⟨hold.1, ?_⟩
        by_contra hlt
        exact hcond ⟨hold.1, by omega⟩
      · intro hc
        exact h.mpr ⟨hc.1, le_trans hc.2 hreal⟩
  unfold onTransactionCompleted
  simp only []
  exact key
    { s with
      inFlight := s.inFlight - 1
      realRequestsInFlight :=
        if b = true then s.realRequestsInFlight
        else s.realRequestsInFlight - 1 } rfl rfl
    (by cases b <;> simp [Nat.sub_le])

theorem throttleInv_run (ops : List Op) (s : Session)
    (hops : ∀ op ∈ ops, isTxOp op = true) (h : throttleInv s) :
    throttleInv (run ops s) := by
  induction ops generalizing s with
  | nil => exact h
  | cons op rest ih =>
    have hop := hops op (List.mem_cons_self op rest)
    have hrest : ∀ o ∈ rest, isTxOp o = true := fun o ho =>
      hops o (List.mem_cons_of_mem _ ho)
    cases op with
    | onTransactionStarted b =>
      exact ih _ hrest (throttleInv_onTransactionStarted b s h)
    | onTransactionCompleted b =>
      exact ih _ hrest (throttleInv_onTransactionCompleted b s h)
    | pause r => simp [isTxOp] at hop
    | resume r => simp [isTxOp] at hop
    | reply wb reqid => simp [isTxOp] at hop
    | close => simp [isTxOp] at hop
    | multiOpEnd => simp [isTxOp] at hop
    | requestReady o p r n => simp [isTxOp] at hop
    | typedRequestReady t r => simp [isTxOp] at hop
    | parseError r e => simp [isTxOp] at hop
    | sendWrites => simp [isTxOp] at hop
    | writeSuccess => simp [isTxOp] at hop
    | writeErr => simp [isTxOp] at hop
    | readEOF => simp [isTxOp] at hop
    | readErr => simp [isTxOp] at hop
    | readDataAvailable ok => simp [isTxOp] at hop

theorem checkClosed_idem (s : Session) :
    checkClosed (checkClosed s) = checkClosed s := by
  by_cases h : s.inFlight = 0 ∧ s.state = .CLOSING
  · rw [checkClosed_fire s h.1 h.2]
    apply checkClosed_stay
    intro hc
    simp at hc
  · rw [checkClosed_stay s h, checkClosed_stay s h]

theorem closeTransition_eq (s : Session) :
    closeTransition s =
      checkClosed
        (if s.state = .STREAMING then
          { s with state := .CLOSING, events := s.events ++ [.onCloseStart] }
        else s) := rfl

theorem checkClosed_close (s : Session) :
    checkClosed (close s) = close s := by
  unfold close
  rw [closeTransition_eq]
  exact checkClosed_idem _

theorem checkClosed_state_or (s : Session) :
    (checkClosed s).state = s.state ∨ (checkClosed s).state = .CLOSED := by
  unfold checkClosed
  split
  · split
    · right
      rfl
    · left
      rfl
  · left
    rfl

theorem close_state_ne_streaming (s : Session) :
    (close s).state ≠ .STREAMING := by
  unfold close
  rw [closeTransition_eq]
  set w := if s.currentMultiop.isSome = true then processMultiOpEnd s else s
    with hw
  set x := if w.state = .STREAMING then
      { w with state := .CLOSING, events := w.events ++ [.onCloseStart] }
    else w with hx
  have hxs : x.state ≠ .STREAMING := by
    rw [hx]
    split
    · simp
    · rename_i hws
      exact hws
  rcases checkClosed_state_or x with h | h
  · rw [h]
    exact hxs
  · rw [h]
    simp

theorem close_currentMultiop (s : Session) :
    (close s).currentMultiop = none := by
  unfold close
  rw [closeTransition_eq, (checkClosed_fields _).2.2.2.2.2.1]
  have hw : ∀ w : Session, w.currentMultiop = none →
      (if w.state = .STREAMING then
        { w with state := .CLOSING, events := w.events ++ [.onCloseStart] }
      else w).currentMultiop = none := by
    intro w hwn
    split
    · exact hwn
    · exact hwn
  apply hw
  split
  · rfl
  · rename_i hsome
    simpa [Option.not_isSome_iff_eq_none] using hsome

theorem close_close (s : Session) : close (close s) = close s := by
  conv_lhs => rw [close]
  rw [close_currentMultiop]
  simp only [Option.isSome_none, Bool.false_eq_true, if_false]
  rw [closeTransition_eq, if_neg (close_state_ne_streaming s)]
  exact checkClosed_close s

theorem close_iterate (n : Nat) (s : Session) (h : 1 ≤ n) :
    close^[n] s = close s := by
  induction n generalizing s with
  | zero => omega
  | succ m ih =>
    rw [Function.iterate_succ_apply]
    by_cases hm : 1 ≤ m
    · rw [ih (close s) hm]
      exact close_close s
    · have hm0 : m = 0 := by omega
      subst hm0
      simp

theorem countStart_checkClosed (s : Session) :
    countStart (checkClosed s).events = countStart s.events := by
  by_cases h : s.inFlight = 0 ∧ s.state = .CLOSING
  · rw [checkClosed_fire s h.1 h.2]
    show countStart (s.events ++ [Event.onCloseFinish, Event.destroy]) = _
    rw [countStart_append]
    simp [countStart]
  · rw [checkClosed_stay s h]

theorem close_countStart (s : Session) :
    countStart (close s).events ≤ countStart s.events + 1 := by
  unfold close
  rw [closeTransition_eq, countStart_checkClosed]
  have key : ∀ w : Session, countStart w.events = countStart s.events →
      countStart
        (if w.state = .STREAMING then
          { w with state := .CLOSING, events := w.events ++ [.onCloseStart] }
        else w).events ≤ countStart s.events + 1 := by
    intro w hw
    split
    · show countStart (w.events ++ [Event.onCloseStart]) ≤ _
      rw [countStart_append, hw]
      simp [countStart]
    · rw [hw]
      omega
  apply key
  split
  · show countStart (s.events ++ [Event.recordEnd s.tailReqid]) = _
    rw [countStart_append]
    simp [countStart]
  · rfl

theorem close_writeBufs (s : Session) : (close s).writeBufs = s.writeBufs := by
  unfold close
  rw [closeTransition_eq]
  rw [(checkClosed_fields _).2.2.2.2.1]
  have key : ∀ w : Session, w.writeBufs = s.writeBufs →
      (if w.state = .STREAMING then
        { w with state := .CLOSING, events := w.events ++ [.onCloseStart] }
      else w).writeBufs = s.writeBufs := by
    intro w hw
    split
    · exact hw
    · exact hw
  apply key
  split
  · rfl
  · rfl

theorem foldl_iovs (l : List WriteBuffer) (acc : List Nat) :
    l.foldl (fun acc wb => if wb.noReply then acc else acc ++ wb.iovs) acc =
      acc ++ (l.filter (fun wb => !wb.noReply)).flatMap (fun wb => wb.iovs) := by
  induction l generalizing acc with
  | nil => simp
  | cons wb rest ih =>
    by_cases h : wb.noReply
    · simp [List.foldl_cons, List.filter_cons, h, ih]
    · simp [List.foldl_cons, List.filter_cons, h, ih]

/-- Batched-mode options: no cap, batched writes, no version handling. -/
def optsBatched : Options :=
  { maxInFlight := 0, singleWrite := false, defaultVersionHandler := false }

/-- A freshly created in-order ASCII session with batched writes. -/
def sInit : Session := initialSession optsBatched false .mc_ascii_protocol

/-- A reachable session (one real transaction started under a cap of 1)
    whose pause mask already has the Throttled bit set. -/
def throttledSession : Session :=
  run [.onTransactionStarted false]
    (initialSession
      { maxInFlight := 1, singleWrite := false,
        defaultVersionHandler := false } false .mc_ascii_protocol)

/-- A session in the middle of a graceful close. -/
def closingSession : Session := { sInit with state := .CLOSING }

/-- A fully closed session. -/
def closedSession : Session := { sInit with state := .CLOSED }

/-- A batched session with two staged replies (one noreply) and an
    outstanding batch of two retained buffers. -/
def batchSession : Session :=
  { sInit with
    pendingWrites :=
      [{ reqid := 0, noReply := false, iovs := [10, 11] },
       { reqid := 1, noReply := true, iovs := [20] }]
    writeBufs :=
      [{ reqid := 2, noReply := false, iovs := [30] },
       { reqid := 3, noReply := false, iovs := [31] },
       { reqid := 4, noReply := false, iovs := [32] }]
    writeBatches := [2] }

/-- A session inside an ASCII multiget: the parent slot 0 was reserved and
    one sub-request id was handed out. -/
def multiopSession : Session :=
  { sInit with currentMultiop := some 0, tailReqid := 2 }

/-- C1: In ASCII in-order mode, reply(buffer, reqid) queues the buffer at
    once and drains contiguous blocked replies when reqid is the head id,
    and otherwise stores the buffer in blockedReplies under reqid; for any
    arrival permutation of replies to ids 0..n-1, the sequence of reply
    ids handed to queueWrite is exactly 0, 1, ..., n-1, with
    blockedReplies drained and headReqid ending at n. -/
theorem reply_ascii_in_order_spec :
    (∀ (s : Session) (wb : WriteBuffer) (reqid : Nat),
        s.parserOutOfOrder = false → reqid = s.headReqid →
        reply wb reqid s =
          drainBlockedReplies
            { queueWrite (some wb) s with headReqid := s.headReqid + 1 }) ∧
    (∀ (s : Session) (wb : WriteBuffer) (reqid : Nat),
        s.parserOutOfOrder = false → reqid ≠ s.headReqid →
        reply wb reqid s =
          { s with
            blockedReplies := emplaceBlocked reqid wb s.blockedReplies }) ∧
    (∀ (n : Nat) (ids : List Nat) (mk : Nat → WriteBuffer) (s0 : Session),
        ids.Perm (List.range n) → (∀ i, (mk i).reqid = i) →
        s0.parserOutOfOrder = false → s0.headReqid = 0 →
        s0.blockedReplies = [] → qwTrace s0.events = [] →
        qwTrace (replySeq mk ids s0).events = List.range n ∧
        (replySeq mk ids s0).blockedReplies = [] ∧
        (replySeq mk ids s0).headReqid = n) := by
  refine ⟨?_, ?_, ?_⟩
  · intro s wb reqid hooo hreq
    unfold reply
    rw [hooo]
    simp only [Bool.false_eq_true, if_false]
    rw [if_pos hreq]
    have hq := (queueWrite_fields wb s).1
    show drainBlockedReplies
        { queueWrite (some wb) s with
          headReqid := (queueWrite (some wb) s).headReqid + 1 } = _
    rw [hq]
  · intro s wb reqid hooo hreq
    unfold reply
    rw [hooo]
    simp only [Bool.false_eq_true, if_false]
    rw [if_neg hreq]
  · intro n ids mk s0 hperm hmk hooo hhead hblocked htrace
    exact replySeq_final n ids mk s0 hperm hmk hooo hhead hblocked htrace

/-- C1 witness: replies for ids 0,1,2 arriving in order 2,0,1 are queued
    as 0,1,2. -/
theorem reply_ascii_in_order_spec_witness :
    qwTrace (replySeq (fun i => { reqid := i, noReply := false, iovs := [] })
      [2, 0, 1] sInit).events = List.range 3 ∧
    (replySeq (fun i => { reqid := i, noReply := false, iovs := [] })
      [2, 0, 1] sInit).headReqid = 3 := by
  have h := reply_ascii_in_order_spec.2.2 3 [2, 0, 1]
    (fun i => { reqid := i, noReply := false, iovs := [] }) sInit
    (by decide) (fun i => rfl) rfl rfl rfl rfl
  exact ⟨h.1, h.2.2⟩

/-- C2: the session state only moves forward along
    Streaming -> Closing -> Closed, nothing leaves Closed, the
    Closing -> Closed transition in checkClosed happens exactly when
    in_flight is 0 (with pending_writes empty by the asserted invariant)
    and detaches the read callback, releases the transport, fires
    onCloseFinish and self-destructs; over any run from the initial
    session, onCloseFinish has fired exactly once iff the state is
    Closed. -/
theorem close_lifecycle_spec :
    (∀ (op : Op) (s : Session),
        stateRank s.state ≤ stateRank (step op s).state) ∧
    (∀ (op : Op) (s : Session), s.state = .CLOSED →
        (step op s).state = .CLOSED) ∧
    (∀ s : Session, (s.inFlight = 0 → s.pendingWrites = []) →
        s.state ≠ .CLOSED → (checkClosed s).state = .CLOSED →
        s.state = .CLOSING ∧ s.inFlight = 0 ∧ s.pendingWrites = [] ∧
        checkClosed s =
          { s with
            state := .CLOSED
            transport := none
            events := s.events ++ [.onCloseFinish, .destroy] }) ∧
    (∀ (options : Options) (ooo : Bool) (proto : Protocol) (ops : List Op),
        countFinish (run ops (initialSession options ooo proto)).events =
          if (run ops (initialSession options ooo proto)).state = .CLOSED
          then 1 else 0) := by
  refine ⟨?_, ?_, ?_, ?_⟩
  · intro op s
    exact (lifecycle_step op s).1
  · intro op s h
    have hrank := (lifecycle_step op s).1
    rw [h] at hrank
    cases hs : (step op s).state
    · rw [hs] at hrank
      simp [stateRank] at hrank
    · rw [hs] at hrank
      simp [stateRank] at hrank
    · rfl
  · intro s hA hneq hC
    by_cases h : s.inFlight = 0 ∧ s.state = .CLOSING
    · exact ⟨h.2, h.1, hA h.1, checkClosed_fire s h.1 h.2⟩
    · rw [checkClosed_stay s h] at hC
      exact absurd hC hneq
  · intro options ooo proto ops
    have h0 : finishOnce (initialSession options ooo proto) := by
      unfold finishOnce initialSession
      simp [countFinish]
    exact run_finishOnce ops _ h0

/-- C2 witness: checkClosed on an idle Closing session transitions to
    Closed, drops the transport and fires onCloseFinish then destroys. -/
theorem close_lifecycle_spec_witness :
    closingSession.state = .CLOSING ∧ closingSession.inFlight = 0 ∧
    closingSession.pendingWrites = [] ∧
    checkClosed closingSession =
      { closingSession with
        state := .CLOSED
        transport := none
        events := closingSession.events ++ [.onCloseFinish, .destroy] } :=
  close_lifecycle_spec.2.2.1 closingSession (fun _ => rfl) (by decide)
    (by decide)

/-- C3: onTransactionStarted increments in_flight (and real_in_flight for
    non-sub-requests), pausing with Throttled when the enabled cap is
    reached; onTransactionCompleted decrements symmetrically and resumes
    Throttled when real_in_flight drops below the cap; over any run of
    transaction entry points from the initial session, the Throttled bit
    is set iff real_in_flight >= max_in_flight > 0. -/
theorem transaction_throttle_spec :
    (∀ (b : Bool) (s : Session),
        (onTransactionStarted b s).inFlight = s.inFlight + 1 ∧
        (onTransactionStarted b s).realRequestsInFlight =
          (if b then s.realRequestsInFlight
           else s.realRequestsInFlight + 1) ∧
        (0 < s.options.maxInFlight →
          s.options.maxInFlight ≤
            (if b then s.realRequestsInFlight
             else s.realRequestsInFlight + 1) →
          (onTransactionStarted b s).pauseState =
            s.pauseState ||| PAUSE_THROTTLED ∧
          (onTransactionStarted b s).transport =
            s.transport.map (fun t => { t with readCB := false }))) ∧
    (∀ (b : Bool) (s : Session),
        (onTransactionCompleted b s).inFlight = s.inFlight - 1 ∧
        (onTransactionCompleted b s).realRequestsInFlight =
          (if b then s.realRequestsInFlight
           else s.realRequestsInFlight - 1) ∧
        (0 < s.options.maxInFlight →
          (if b then s.realRequestsInFlight
           else s.realRequestsInFlight - 1) < s.options.maxInFlight →
          (onTransactionCompleted b s).pauseState =
            s.pauseState &&& (PAUSE_THROTTLED ^^^ UINT64_MASK))) ∧
    (∀ (options : Options) (ooo : Bool) (proto : Protocol) (ops : List Op),
        (∀ op ∈ ops, isTxOp op = true) →
        throttleInv (run ops (initialSession options ooo proto))) := by
  refine ⟨?_, ?_, ?_⟩
  · intro b s
    have key : ∀ t : Session,
        (if 0 < t.options.maxInFlight ∧
            t.options.maxInFlight ≤ t.realRequestsInFlight then
          pause PAUSE_THROTTLED t
        else t).inFlight = t.inFlight ∧
        (if 0 < t.options.maxInFlight ∧
            t.options.maxInFlight ≤ t.realRequestsInFlight then
          pause PAUSE_THROTTLED t
        else t).realRequestsInFlight = t.realRequestsInFlight ∧
        (0 < t.options.maxInFlight →
          t.options.maxInFlight ≤ t.realRequestsInFlight →
          (if 0 < t.options.maxInFlight ∧
              t.options.maxInFlight ≤ t.realRequestsInFlight then
            pause PAUSE_THROTTLED t
          else t).pauseState = t.pauseState ||| PAUSE_THROTTLED ∧
          (if 0 < t.options.maxInFlight ∧
              t.options.maxInFlight ≤ t.realRequestsInFlight then
            pause PAUSE_THROTTLED t
          else t).transport =
            t.transport.map (fun tr => { tr with readCB := false })) := by
      intro t
      refine ⟨?_, ?_, ?_⟩
      · split
        · rfl
        · rfl
      · split
        · rfl
        · rfl
      · intro h1 h2
        rw [if_pos ⟨h1, h2⟩]
        exact ⟨rfl, rfl⟩
    unfold onTransactionStarted
    simp only []
    exact key
      { s with
        inFlight := s.inFlight + 1
        realRequestsInFlight :=
          if b = true then s.realRequestsInFlight
          else s.realRequestsInFlight + 1 }
  · intro b s
    have key : ∀ t : Session,
        (checkClosed (if 0 < t.options.maxInFlight ∧
            t.realRequestsInFlight < t.options.maxInFlight then
          resume PAUSE_THROTTLED t
        else t)).inFlight = t.inFlight ∧
        (checkClosed (if 0 < t.options.maxInFlight ∧
            t.realRequestsInFlight < t.options.maxInFlight then
          resume PAUSE_THROTTLED t
        else t)).realRequestsInFlight = t.realRequestsInFlight ∧
        (0 < t.options.maxInFlight →
          t.realRequestsInFlight < t.options.maxInFlight →
          (checkClosed (if 0 < t.options.maxInFlight ∧
              t.realRequestsInFlight < t.options.maxInFlight then
            resume PAUSE_THROTTLED t
          else t)).pauseState =
            t.pauseState &&& (PAUSE_THROTTLED ^^^ UINT64_MASK)) := by
      intro t
      refine ⟨?_, ?_, ?_⟩
      · rw [(checkClosed_fields _).2.2.2.1]
        split
        · rw [(resume_fields _ _).2.2.2.1]
        · rfl
      · rw [(checkClosed_fields _).2.2.1]
        split
        · rw [(resume_fields _ _).2.2.1]
        · rfl
      · intro h1 h2
        rw [(checkClosed_fields _).1, if_pos ⟨h1, h2⟩,
          (resume_fields _ _).1]
    unfold onTransactionCompleted
    simp only []
    exact key
      { s with
        inFlight := s.inFlight - 1
        realRequestsInFlight :=
          if b = true then s.realRequestsInFlight
          else s.realRequestsInFlight - 1 }
  · intro options ooo proto ops hops
    apply throttleInv_run ops _ hops
    unfold throttleInv
    show (0 &&& PAUSE_THROTTLED ≠ 0) ↔
      (0 < options.maxInFlight ∧ options.maxInFlight ≤ 0)
    constructor
    · intro h
      simp [Nat.zero_and] at h
    · intro h
      omega

/-- C3 witness: after one real transaction under a cap of 1, the invariant
    holds (the Throttled bit is set). -/
theorem transaction_throttle_spec_witness :
    throttleInv (run [.onTransactionStarted false]
      (initialSession
        { maxInFlight := 1, singleWrite := false,
          defaultVersionHandler := false } false .mc_ascii_protocol)) :=
  transaction_throttle_spec.2.2 _ _ _ _ (by decide)

/-- C4: in batched mode one sendWrites call drains all of pendingWrites
    into one batch (noreply buffers contribute no iovecs to the writev but
    are still pushed into writeBufs), appends the drained count to
    writeBatches; each completion (success or error) pops exactly count
    buffers from writeBufs, where count is 1 in single-write mode and the
    front of writeBatches otherwise. -/
theorem batched_write_accounting_spec (s : Session) :
    (s.options.singleWrite = false →
      (sendWrites s).pendingWrites = [] ∧
      (sendWrites s).writeBufs = s.writeBufs ++ s.pendingWrites ∧
      (sendWrites s).writeBatches =
        s.writeBatches ++ [s.pendingWrites.length] ∧
      (sendWrites s).events = s.events ++
        [.writev ((s.pendingWrites.filter (fun wb => !wb.noReply)).flatMap
          (fun wb => wb.iovs))]) ∧
    (completeWrite s).writeBufs =
      s.writeBufs.drop
        (if s.options.singleWrite then 1 else s.writeBatches.headD 0) ∧
    ((if s.options.singleWrite then 1 else s.writeBatches.headD 0) ≤
        s.writeBufs.length →
      (completeWrite s).writeBufs.length =
        s.writeBufs.length -
          (if s.options.singleWrite then 1 else s.writeBatches.headD 0)) ∧
    (completeWrite s).writeBatches =
      (if s.options.singleWrite then s.writeBatches
       else s.writeBatches.tail) ∧
    (writeSuccess s).writeBufs = (completeWrite s).writeBufs ∧
    (writeErr s).writeBufs = (completeWrite s).writeBufs := by
  refine ⟨?_, ?_, ?_, ?_, ?_, ?_⟩
  · intro hsw
    refine ⟨rfl, rfl, rfl, ?_⟩
    show s.events ++
        [.writev (s.pendingWrites.foldl
          (fun acc wb => if wb.noReply then acc else acc ++ wb.iovs) [])] = _
    rw [foldl_iovs]
    simp
  · unfold completeWrite
    simp only []
    split
    · rfl
    · rfl
  · intro hle
    unfold completeWrite
    simp only []
    split
    · rename_i hsw
      show (s.writeBufs.drop 1).length = _
      rw [List.length_drop]
    · rename_i hsw
      show (s.writeBufs.drop (s.writeBatches.headD 0)).length = _
      rw [List.length_drop]
  · unfold completeWrite
    simp only []
    split
    · rfl
    · rfl
  · unfold writeSuccess
    simp only []
    split
    · rw [(resume_fields _ _).2.2.2.2.2.2]
    · rfl
  · unfold writeErr
    rw [close_writeBufs]
  
/-- C4 witness: draining a two-buffer batch (one noreply) retains both in
    writeBufs, and a completion pops the batch of two. -/
theorem batched_write_accounting_spec_witness :
    (sendWrites batchSession).writeBufs =
      batchSession.writeBufs ++ batchSession.pendingWrites ∧
    (completeWrite batchSession).writeBufs.length =
      batchSession.writeBufs.length -
        (if batchSession.options.singleWrite then 1
         else batchSession.writeBatches.headD 0) :=
  ⟨((batched_write_accounting_spec batchSession).1 rfl).2.1,
   (batched_write_accounting_spec batchSession).2.2.1 (by decide)⟩

/-- C5: processMultiOpEnd records the aggregator's end against a freshly
    consumed tailReqid (distinct from the reserved parent id, which is
    always below tailReqid) and clears currentMultiop; close() with an
    active multi-op first processes the end exactly as multiOpEnd would,
    before the close transition. -/
theorem multiop_end_spec (s : Session) (p : Nat)
    (hmul : s.currentMultiop = some p) (hlt : p < s.tailReqid) :
    processMultiOpEnd s =
      { s with
        events := s.events ++ [.recordEnd s.tailReqid]
        tailReqid := s.tailReqid + 1
        currentMultiop := none } ∧
    (processMultiOpEnd s).currentMultiop = none ∧
    s.tailReqid ≠ p ∧
    close s = closeTransition (processMultiOpEnd s) := by
  refine ⟨rfl, rfl, by omega, ?_⟩
  unfold close
  simp only []
  rw [hmul]
  rfl

/-- C5 witness: with parent id 0 reserved and tailReqid at 2, the end is
    recorded at 2, not 0, and the aggregator is cleared. -/
theorem multiop_end_spec_witness :
    (processMultiOpEnd multiopSession).currentMultiop = none ∧
    multiopSession.tailReqid ≠ 0 ∧
    close multiopSession = closeTransition (processMultiOpEnd multiopSession) :=
  ⟨(multiop_end_spec multiopSession 0 rfl (by decide)).2.1,
   (multiop_end_spec multiopSession 0 rfl (by decide)).2.2.1,
   (multiop_end_spec multiopSession 0 rfl (by decide)).2.2.2⟩

/-- C6: while streaming, requestReady uses the parser-assigned id
    unchanged if the parser is out of order; otherwise it ignores the
    parser id and assigns tailReqid++, first creating a multi-op
    aggregator that consumes its own tailReqid++ (so the parent slot
    precedes the sub-request) when the op is an ASCII multiget member and
    none is active. -/
theorem request_reqid_assignment_spec (operation : McOp) (parserReqid : Nat)
    (result : McRes) (noreply : Bool) (s : Session)
    (hstream : s.state = .STREAMING) :
    requestReady operation parserReqid result noreply s =
      dispatch
        { operation := operation
          reqid := (assignReqid operation parserReqid s).2
          noreply := noreply
          multiopParent := (assignReqid operation parserReqid s).1.currentMultiop }
        result (assignReqid operation parserReqid s).1 ∧
    (s.parserOutOfOrder = true →
      assignReqid operation parserReqid s = (s, parserReqid)) ∧
    (s.parserOutOfOrder = false →
      (isPartOfMultiget s.parserProtocol operation = true ∧
          s.currentMultiop = none →
        (assignReqid operation parserReqid s).1.currentMultiop =
          some s.tailReqid ∧
        (assignReqid operation parserReqid s).2 = s.tailReqid + 1 ∧
        (assignReqid operation parserReqid s).1.tailReqid =
          s.tailReqid + 2) ∧
      (¬(isPartOfMultiget s.parserProtocol operation = true ∧
          s.currentMultiop = none) →
        (assignReqid operation parserReqid s).2 = s.tailReqid ∧
        (assignReqid operation parserReqid s).1.tailReqid =
          s.tailReqid + 1 ∧
        (assignReqid operation parserReqid s).1.currentMultiop =
          s.currentMultiop)) := by
  refine ⟨?_, ?_, ?_⟩
  · unfold requestReady
    rw [if_neg (fun hc => hc hstream)]
  · intro hooo
    unfold assignReqid
    rw [hooo]
    rfl
  · intro hooo
    constructor
    · intro hcr
      unfold assignReqid
      rw [hooo]
      simp only [if_pos rfl, if_pos hcr]
      exact ⟨rfl, rfl, rfl⟩
    · intro hcr
      unfold assignReqid
      rw [hooo]
      simp only [if_pos rfl, if_neg hcr]
      exact ⟨rfl, rfl, rfl⟩

/-- C6 witness: an ASCII get on a fresh in-order session creates the
    aggregator at slot 0 and assigns the request id 1, with tailReqid
    moving to 2. -/
theorem request_reqid_assignment_spec_witness :
    (assignReqid .mc_op_get 7 sInit).1.currentMultiop = some 0 ∧
    (assignReqid .mc_op_get 7 sInit).2 = 1 ∧
    (assignReqid .mc_op_get 7 sInit).1.tailReqid = 2 :=
  ((request_reqid_assignment_spec .mc_op_get 7 .mc_res_ok false sInit
    rfl).2.2 rfl).1 ⟨rfl, rfl⟩

/-- C7: close() is idempotent: n invocations (n >= 1) produce the same
    state and the same callback firings as one, and one close fires
    onCloseStart at most once. -/
theorem close_idempotent_spec (s : Session) (n : Nat) (h : 1 ≤ n) :
    close^[n] s = close s ∧
    countStart (close^[n] s).events ≤ countStart s.events + 1 := by
  refine ⟨close_iterate n s h, ?_⟩
  rw [close_iterate n s h]
  exact close_countStart s

/-- C7 witness: closing twice from the initial session equals closing
    once. -/
theorem close_idempotent_spec_witness :
    close^[2] sInit = close sInit :=
  (close_idempotent_spec sInit 2 (by decide)).1

/-- C8 counterexample: on the reachable session whose Throttled bit is
    already set, pause(Throttled); resume(Throttled) clears the bit, so
    the pause mask is NOT restored.  The first conjunct exhibits
    reachability of the state by a concrete run. -/
theorem pause_resume_roundtrip_cex :
    throttledSession =
      run [.onTransactionStarted false]
        (initialSession
          { maxInFlight := 1, singleWrite := false,
            defaultVersionHandler := false } false .mc_ascii_protocol) ∧
    (resume PAUSE_THROTTLED
        (pause PAUSE_THROTTLED throttledSession)).pauseState ≠
      throttledSession.pauseState := by
  refine ⟨rfl, ?_⟩
  decide

/-- C8 amended: pause(r); resume(r) restores pause_mask provided no bit of
    r was already set in it (both values being 64-bit quantities). -/
theorem pause_resume_roundtrip_amended (s : Session) (r : Nat)
    (hs : s.pauseState < 2 ^ 64) (hr : r < 2 ^ 64)
    (h0 : s.pauseState &&& r = 0) :
    (resume r (pause r s)).pauseState = s.pauseState := by
  rw [(resume_fields r (pause r s)).1, (pause_fields r s).1]
  exact lor_land_complement s.pauseState r hs hr h0

/-- C8 witness: on the fresh session (empty mask), pause(Write);
    resume(Write) restores the mask. -/
theorem pause_resume_roundtrip_amended_witness :
    (resume PAUSE_WRITE (pause PAUSE_WRITE sInit)).pauseState =
      sInit.pauseState :=
  pause_resume_roundtrip_amended sInit PAUSE_WRITE (by decide) (by decide)
    (by decide)

/-- C9: a parse error while streaming synthesizes exactly one error reply
    carrying the parser's result and reason at a freshly consumed
    tailReqid, then closes; nothing else in the session is touched before
    that reply and close.  Outside streaming it is a no-op. -/
theorem parse_error_spec (result : McRes) (reason : String) (s : Session)
    (hstream : s.state = .STREAMING) :
    parseError result reason s =
      close
        { s with
          tailReqid := s.tailReqid + 1
          events := s.events ++ [.errorReply s.tailReqid result reason] } ∧
    (∀ t : Session, t.state ≠ .STREAMING → parseError result reason t = t) := by
  constructor
  · unfold parseError
    rw [if_neg (fun hc => hc hstream)]
  · intro t ht
    unfold parseError
    rw [if_pos ht]

/-- C9 witness: a client error on the fresh session synthesizes the error
    reply at id 0 and closes. -/
theorem parse_error_spec_witness :
    parseError .mc_res_client_error "parse failed" sInit =
      close
        { sInit with
          tailReqid := sInit.tailReqid + 1
          events := sInit.events ++
            [.errorReply sInit.tailReqid .mc_res_client_error
              "parse failed"] } :=
  (parse_error_spec .mc_res_client_error "parse failed" sInit rfl).1

/-- C10: once the state has left Streaming, requestReady,
    typedRequestReady, parseError and multiOpEnd return immediately
    leaving the session untouched (so no handler callback fires and no id
    is consumed); close() always leaves the state out of Streaming. -/
theorem entry_points_closed_noop_spec (s : Session)
    (h : s.state ≠ .STREAMING) :
    (∀ (operation : McOp) (parserReqid : Nat) (result : McRes)
        (noreply : Bool),
      requestReady operation parserReqid result noreply s = s) ∧
    (∀ typeId reqid : Nat, typedRequestReady typeId reqid s = s) ∧
    (∀ (result : McRes) (reason : String), parseError result reason s = s) ∧
    multiOpEnd s = s ∧
    (∀ t : Session, (close t).state ≠ .STREAMING) := by
  refine ⟨?_, ?_, ?_, ?_, ?_⟩
  · intro operation parserReqid result noreply
    unfold requestReady
    rw [if_pos h]
  · intro typeId reqid
    unfold typedRequestReady
    rw [if_pos h]
  · intro result reason
    unfold parseError
    rw [if_pos h]
  · unfold multiOpEnd
    rw [if_pos h]
  · exact close_state_ne_streaming

/-- C10 witness: on a closed session, requestReady and multiOpEnd are
    no-ops. -/
theorem entry_points_closed_noop_spec_witness :
    requestReady .mc_op_get 0 .mc_res_ok false closedSession =
      closedSession ∧
    multiOpEnd closedSession = closedSession :=
  ⟨(entry_points_closed_noop_spec closedSession (by decide)).1 .mc_op_get 0
      .mc_res_ok false,
   (entry_points_closed_noop_spec closedSession (by decide)).2.2.2.1⟩
